import Mathlib

/-!
Verification of the core of `nomad_material_processing/__init__.py`:
the temporal-ordering validator `SampleDeposition.is_serial`, the
task-graph synthesizer inside `SampleDeposition.normalize`, and the
composite-reference flattener `ThinFilmStack.normalize`.

Time scalars (`start_time.timestamp()` and `duration.to('s').magnitude`,
both numeric scalars in the source) are modelled as integer scalars in
seconds.
-/

namespace NMP

/-- A single timed process step (an `ActivityStep` in the source).
`start_time` is the optional absolute timestamp, `duration` the optional
time span; `none` models Python's `None` for an unset quantity. -/
structure Step where
  name : String
  start_time : Option ℤ
  duration : Option ℤ
  deriving Repr, DecidableEq

instance : Inhabited Step := ⟨⟨"", none, none⟩⟩

/-- A workflow `Link` (`nomad.datamodel.metainfo.workflow.Link`): a named,
non-owning reference back to a step (`Link(name=..., section=...)`). -/
structure Link where
  name : String
  target : Step
  deriving Repr, DecidableEq

/-- A workflow `Task` node: named, with ordered input and output links. -/
structure Task where
  name : String
  inputs : List Link
  outputs : List Link
  deriving Repr, DecidableEq

instance : Inhabited Task := ⟨⟨"", [], []⟩⟩

/-- Modelled from the spec: `to_task()` (framework code absent from `src/`)
"produces a task-node value pre-populated with any step-specific
inputs/outputs"; for the base step type handled by this repository there
are no step-specific pre-populated links, so the produced node carries the
step's name and empty input/output sequences. -/
def to_task (step : Step) : Task :=
  { name := step.name, inputs := [], outputs := [] }

/-- The external workflow container (`archive.workflow2`). -/
structure Workflow where
  tasks : List Task
  deriving Repr, DecidableEq

/-- The archive holding the workflow container (the `archive` argument of
`normalize`). -/
structure Archive where
  workflow2 : Workflow
  deriving Repr, DecidableEq

/-- A `SampleDeposition` record: an ordered sequence of steps
(`self.steps`). -/
structure SampleDeposition where
  steps : List Step
  deriving Repr, DecidableEq

/-- The collection loop of `is_serial`: walk `self.steps` in order; if any
step has `start_time is None or duration is None`, the whole call returns
`False` (modelled by `none`); otherwise collect the two scalar lists
(`start_times`, `durations`). -/
def collectTimes : List Step → Option (List ℤ × List ℤ)
  | [] => some ([], [])
  | step :: rest =>
    match step.start_time, step.duration with
    | some st, some d =>
      match collectTimes rest with
      | some (sts, ds) => some (st :: sts, d :: ds)
      | none => none
    | _, _ => none

/-- `SampleDeposition.is_serial`: collect `start_times` and `durations`
(returning `False` on any missing value), form
`end_times = start_times + durations`, the adjacent differences
`diffs = start_times[1:] - end_times[:-1]`, and return `False` iff some
difference is negative (`np.any(diffs < 0)`). -/
def SampleDeposition.is_serial (self : SampleDeposition) : Bool :=
  match collectTimes self.steps with
  | none => false
  | some (start_times, durations) =>
    let end_times := List.zipWith (· + ·) start_times durations
    let diffs := List.zipWith (· - ·) start_times.tail end_times
    if diffs.any (fun d => decide (d < 0)) then false else true

/-- The synthesis loop body of `SampleDeposition.normalize`: iterate the
steps tracking `previous` (initially `none`); each step's task gets an
output link `Link(name=step.name, section=step)` appended, then, when
`previous` exists, an input link `Link(name=previous.name,
section=previous)` appended; the task is appended to the result and
`previous` becomes the current step. -/
def tasksLoop : Option Step → List Step → List Task
  | _, [] => []
  | previous, step :: rest =>
    let task := to_task step
    let task := { task with outputs := task.outputs ++ [⟨step.name, step⟩] }
    let task :=
      match previous with
      | some p => { task with inputs := task.inputs ++ [⟨p.name, p⟩] }
      | none => task
    task :: tasksLoop (some step) rest

/-- The task sequence synthesized by `SampleDeposition.normalize` from its
steps (the `tasks` local of the source). -/
def synthesize (steps : List Step) : List Task :=
  tasksLoop none steps

/-- `SampleDeposition.normalize`: after the (out-of-scope) super-class
normalization — modelled from the spec as leaving the workflow task list
untouched, the spec's only published output being the task sequence — if
`is_serial()` holds, synthesize the task chain and assign it wholesale to
`archive.workflow2.tasks`; otherwise the archive is left as is. -/
def SampleDeposition.normalize (self : SampleDeposition) (archive : Archive) :
    Archive :=
  if self.is_serial then
    { archive with
        workflow2 := { archive.workflow2 with tasks := synthesize self.steps } }
  else
    archive

/-- A composite system that layer and substrate references resolve to
(identified by name; the core never looks inside). -/
structure CompositeSys where
  name : String
  deriving Repr, DecidableEq

/-- `ThinFilmReference`: an entry of `ThinFilmStack.layers`, holding an
optional `reference` to a thin film. -/
structure ThinFilmReference where
  reference : Option CompositeSys
  deriving Repr, DecidableEq

/-- `SubstrateReference`: holds an optional `reference` to a substrate. -/
structure SubstrateReference where
  reference : Option CompositeSys
  deriving Repr, DecidableEq

/-- `SystemComponent(system=...)`: a component wrapping a system
reference. -/
structure SystemComponent where
  system : CompositeSys
  deriving Repr, DecidableEq

/-- `ThinFilmStack`: ordered `layers`, a `substrate` sub-section, and the
derived `components` list. -/
structure ThinFilmStack where
  layers : List ThinFilmReference
  substrate : SubstrateReference
  components : List SystemComponent
  deriving Repr, DecidableEq

/-- `ThinFilmStack.normalize`: reset `components` to `[]`; if `layers` is
non-empty (Python truthiness of the list), rebuild it as one
`SystemComponent` per layer whose `reference` is set, in layer order; then,
if `substrate.reference` is set, append a `SystemComponent` for it. -/
def ThinFilmStack.normalize (self : ThinFilmStack) : ThinFilmStack :=
  let components : List SystemComponent := []
  let components :=
    if self.layers.isEmpty then components
    else
      (self.layers.filterMap (fun layer => layer.reference)).map
        (fun r => ⟨r⟩)
  let components :=
    match self.substrate.reference with
    | some r => components ++ [⟨r⟩]
    | none => components
  { self with components := components }

/-- The scalar start time of a step with complete timing data (`0` as a
junk value when unset). -/
def stepStart (s : Step) : ℤ := s.start_time.getD 0

/-- The scalar duration in seconds of a step with complete timing data
(`0` as a junk value when unset). -/
def stepDur (s : Step) : ℤ := s.duration.getD 0

/-- The adjacent gap the claims speak about: `start_time[i+1] -
(start_time[i] + duration[i])`, read off a step list by position. -/
def gap (steps : List Step) (i : ℕ) : ℤ :=
  stepStart (steps.getD (i + 1) default) -
    (stepStart (steps.getD i default) + stepDur (steps.getD i default))

/-- The vectorised difference list of `is_serial`, as a standalone
abbreviation for the proofs. -/
def diffs (steps : List Step) : List ℤ :=
  List.zipWith (· - ·) (steps.map stepStart).tail
    (List.zipWith (· + ·) (steps.map stepStart) (steps.map stepDur))

/-- Concrete step from the spec's scenario: `A(start=0s, dur=10s)`. -/
def stepA : Step := ⟨"A", some 0, some 10⟩

/-- Concrete step from the spec's scenario: `B(start=10s, dur=5s)`. -/
def stepB : Step := ⟨"B", some 10, some 5⟩

/-- Concrete step from the spec's scenario: `C(start=15s, dur=0s)`. -/
def stepC : Step := ⟨"C", some 15, some 0⟩

/-- Concrete overlapping step from the spec's scenario:
`B(start=5s, dur=5s)` (starts before `A` ends). -/
def stepBoverlap : Step := ⟨"B", some 5, some 5⟩

/-- Concrete step with missing timing from the spec's scenario:
`B(start=None, dur=5s)`. -/
def stepBmissing : Step := ⟨"B", none, some 5⟩

/-- Concrete step with a negative duration: `X(start=3s, dur=-2s)`, whose
computed end time `1s` precedes its own start. -/
def stepXnegdur : Step := ⟨"X", some 3, some (-2)⟩

/-- Concrete step `Y(start=1s, dur=1s)`, back-to-back after
`stepXnegdur`'s computed end. -/
def stepY : Step := ⟨"Y", some 1, some 1⟩

/-- An archive with a non-empty pre-existing workflow task list, for
exercising the full-replacement behaviour. -/
def archivePre : Archive := ⟨⟨[⟨"old", [], []⟩]⟩⟩

theorem collectTimes_complete (steps : List Step)
    (h : ∀ s ∈ steps, s.start_time.isSome ∧ s.duration.isSome) :
    collectTimes steps = some (steps.map stepStart, steps.map stepDur) := by
  induction steps with
  | nil => rfl
  | cons s rest ih =>
    obtain ⟨hs, hd⟩ := h s (List.mem_cons_self s rest)
    have hrest := ih (fun t ht => h t (List.mem_cons_of_mem _ ht))
    obtain ⟨st, hst⟩ := Option.isSome_iff_exists.mp hs
    obtain ⟨d, hdd⟩ := Option.isSome_iff_exists.mp hd
    simp [collectTimes, hst, hdd, hrest, stepStart, stepDur]

theorem diffs_length (steps : List Step) :
    (diffs steps).length = steps.length - 1 := by
  simp [diffs]

theorem diffs_getElem (steps : List Step) (i : ℕ)
    (h : i < (diffs steps).length) :
    (diffs steps)[i] = gap steps i := by
  have h1 : i + 1 < steps.length := by
    rw [diffs_length] at h; omega
  have h0 : i < steps.length := by omega
  simp only [diffs, List.getElem_zipWith, List.getElem_tail, List.getElem_map]
  rw [gap, List.getD_eq_getElem _ _ h1, List.getD_eq_getElem _ _ h0]

theorem is_serial_eq (steps : List Step) :
    (SampleDeposition.mk steps).is_serial =
      match collectTimes steps with
      | none => false
      | some (start_times, durations) =>
        if (List.zipWith (· - ·) start_times.tail
            (List.zipWith (· + ·) start_times durations)).any
            (fun d => decide (d < 0)) then false else true := rfl

theorem is_serial_iff_gaps (steps : List Step)
    (h : ∀ s ∈ steps, s.start_time.isSome ∧ s.duration.isSome) :
    (SampleDeposition.mk steps).is_serial = true ↔
      ∀ i, i + 1 < steps.length → 0 ≤ gap steps i := by
  rw [is_serial_eq, collectTimes_complete steps h]
  show (if (diffs steps).any (fun d => decide (d < 0)) then false else true)
      = true ↔ _
  rcases hany : (diffs steps).any (fun d => decide (d < 0)) with _ | _
  · simp only [Bool.false_eq_true, if_false, true_iff]
    intro i hi
    have hlen : i < (diffs steps).length := by rw [diffs_length]; omega
    have := (List.any_eq_false.mp hany) _ (List.getElem_mem hlen)
    rw [diffs_getElem steps i hlen] at this
    simpa using this
  · simp only [if_true, Bool.false_eq_true, false_iff]
    intro hall
    rw [List.any_eq_true] at hany
    obtain ⟨x, hx, hneg⟩ := hany
    obtain ⟨i, hlen, hxi⟩ := List.mem_iff_getElem.mp hx
    rw [diffs_getElem steps i hlen] at hxi
    have hi : i + 1 < steps.length := by rw [diffs_length] at hlen; omega
    have hge := hall i hi
    rw [← hxi] at hneg
    simp at hneg
    linarith

theorem collectTimes_incomplete (steps : List Step)
    (h : ∃ s ∈ steps, s.start_time = none ∨ s.duration = none) :
    collectTimes steps = none := by
  induction steps with
  | nil => simp at h
  | cons s rest ih =>
    rcases hs : s.start_time with _ | st <;>
      rcases hd : s.duration with _ | d <;>
        simp only [collectTimes, hs, hd]
    obtain ⟨t, ht, hmiss⟩ := h
    rcases List.mem_cons.mp ht with rfl | ht'
    · rcases hmiss with h1 | h1
      · rw [h1] at hs; cases hs
      · rw [h1] at hd; cases hd
    · rw [ih ⟨t, ht', hmiss⟩]

theorem tasksLoop_length (prev : Option Step) (steps : List Step) :
    (tasksLoop prev steps).length = steps.length := by
  induction steps generalizing prev with
  | nil => rfl
  | cons s rest ih => simp [tasksLoop, ih]

theorem tasksLoop_getD (prev : Option Step) (steps : List Step) (i : ℕ)
    (h : i < steps.length) :
    (tasksLoop prev steps).getD i default =
      { name := (steps.getD i default).name,
        inputs :=
          match i with
          | 0 =>
            match prev with
            | some p => [⟨p.name, p⟩]
            | none => []
          | j + 1 => [⟨(steps.getD j default).name, steps.getD j default⟩],
        outputs := [⟨(steps.getD i default).name, steps.getD i default⟩] } := by
  induction steps generalizing prev i with
  | nil => exact absurd h (by simp)
  | cons s rest ih =>
    cases i with
    | zero => cases prev <;> simp [tasksLoop, to_task]
    | succ j =>
      have hj : j < rest.length := by simpa using h
      simp only [tasksLoop, List.getD_cons_succ]
      rw [ih (some s) j hj]
      cases j with
      | zero => simp
      | succ k => simp


/-- C1: for every step sequence in which every step has both `start_time`
and `duration`, `is_serial` returns `false` iff some adjacent pair
`(i, i+1)` has `start_time[i+1] - (start_time[i] + duration[i]) < 0` in
seconds; and when every adjacent gap is ≥ 0 (including exactly 0,
back-to-back steps) it returns `true`. -/
theorem is_serial_false_iff_negative_gap (steps : List Step)
    (h : ∀ s ∈ steps, s.start_time.isSome ∧ s.duration.isSome) :
    ((SampleDeposition.mk steps).is_serial = false ↔
      ∃ i, i + 1 < steps.length ∧ gap steps i < 0) ∧
    ((∀ i, i + 1 < steps.length → 0 ≤ gap steps i) →
      (SampleDeposition.mk steps).is_serial = true) := by
  have hiff := is_serial_iff_gaps steps h
  refine ⟨⟨?_, ?_⟩, hiff.mpr⟩
  · intro hfalse
    by_contra hno
    push_neg at hno
    have htrue := hiff.mpr hno
    rw [htrue] at hfalse
    cases hfalse
  · rintro ⟨i, hi, hlt⟩
    cases hb : (SampleDeposition.mk steps).is_serial
    · rfl
    · exfalso
      have := hiff.mp hb i hi
      linarith

/-- Witness for C1 at the spec's overlap scenario
`[A(start=0s,dur=10s), B(start=5s,dur=5s)]`: the gap at the adjacent pair
is `5 - (0 + 10) = -5 < 0`, so the validator returns `false`. -/
theorem is_serial_false_iff_negative_gap_witness :
    (SampleDeposition.mk [stepA, stepBoverlap]).is_serial = false :=
  (is_serial_false_iff_negative_gap [stepA, stepBoverlap] (by decide)).1.mpr
    ⟨0, by decide, by decide⟩

/-- C2: for every step sequence in which at least one step is missing
`start_time` or `duration`, `is_serial` returns `false` regardless of the
other steps' timing; the function is total, so no exception is raised for
such incomplete input. -/
theorem is_serial_missing_timing_false (steps : List Step)
    (h : ∃ s ∈ steps, s.start_time = none ∨ s.duration = none) :
    (SampleDeposition.mk steps).is_serial = false := by
  rw [is_serial_eq, collectTimes_incomplete steps h]

/-- Witness for C2 at the spec's scenario
`[A(start=0s,dur=10s), B(start=None,dur=5s)]`. -/
theorem is_serial_missing_timing_false_witness :
    (SampleDeposition.mk [stepA, stepBmissing]).is_serial = false :=
  is_serial_missing_timing_false [stepA, stepBmissing] (by decide)

/-- C6: `is_serial` returns `true` for the empty step sequence and for
every single-step sequence whose one step has both `start_time` and
`duration` (the missing-timing check still applies to that single step). -/
theorem is_serial_trivial_sequences (s : Step)
    (h1 : s.start_time.isSome) (h2 : s.duration.isSome) :
    (SampleDeposition.mk []).is_serial = true ∧
      (SampleDeposition.mk [s]).is_serial = true := by
  refine ⟨rfl, ?_⟩
  rw [is_serial_eq, collectTimes_complete [s]
    (by intro t ht; rw [List.mem_singleton] at ht; subst ht; exact ⟨h1, h2⟩)]
  rfl

/-- Witness for C6 at the single complete step `A(start=0s, dur=10s)`. -/
theorem is_serial_trivial_sequences_witness :
    (SampleDeposition.mk []).is_serial = true ∧
      (SampleDeposition.mk [stepA]).is_serial = true :=
  is_serial_trivial_sequences stepA (by decide) (by decide)

/-- C9: the validator never checks that durations are non-negative: any
step sequence with complete timing data and every adjacent gap ≥ 0 is
accepted, even when some duration is negative (so that step's computed end
time precedes its own start time). -/
theorem is_serial_ignores_negative_duration (steps : List Step)
    (h : ∀ s ∈ steps, s.start_time.isSome ∧ s.duration.isSome)
    (hneg : ∃ s ∈ steps, stepDur s < 0)
    (hgap : ∀ i, i + 1 < steps.length → 0 ≤ gap steps i) :
    (SampleDeposition.mk steps).is_serial = true :=
  (is_serial_iff_gaps steps h).mpr hgap

/-- Witness for C9 at `[X(start=3s,dur=-2s), Y(start=1s,dur=1s)]`: `X`'s
computed end time `1s` precedes its start, the single adjacent gap is
`1 - (3 + (-2)) = 0 ≥ 0`, and the validator returns `true`. -/
theorem is_serial_ignores_negative_duration_witness :
    (SampleDeposition.mk [stepXnegdur, stepY]).is_serial = true :=
  is_serial_ignores_negative_duration [stepXnegdur, stepY] (by decide)
    ⟨stepXnegdur, by decide, by decide⟩
    (by
      intro i hi
      have h0 : i = 0 := by
        simp only [List.length_cons, List.length_nil] at hi
        omega
      subst h0
      decide)


/-- C3: for every serial step sequence the synthesizer produces exactly one
task per input step, in input order; task `i > 0` has exactly one input
Link, named after step `i-1` and targeting step `i-1`; task `0` has no
input Link; and every task `i` has exactly one output Link, named after
step `i` and targeting step `i` itself. -/
theorem synthesize_linear_chain (steps : List Step)
    (hserial : (SampleDeposition.mk steps).is_serial = true) :
    (synthesize steps).length = steps.length ∧
    (∀ i, i < steps.length →
      ((synthesize steps).getD i default).outputs =
        [⟨(steps.getD i default).name, steps.getD i default⟩]) ∧
    (0 < steps.length → ((synthesize steps).getD 0 default).inputs = []) ∧
    (∀ i, 0 < i → i < steps.length →
      ((synthesize steps).getD i default).inputs =
        [⟨(steps.getD (i - 1) default).name, steps.getD (i - 1) default⟩]) := by
  refine ⟨tasksLoop_length none steps, ?_, ?_, ?_⟩
  · intro i hi
    rw [synthesize, tasksLoop_getD none steps i hi]
  · intro h0
    rw [synthesize, tasksLoop_getD none steps 0 h0]
  · intro i h0 hi
    rw [synthesize, tasksLoop_getD none steps i hi]
    obtain ⟨j, rfl⟩ : ∃ j, i = j + 1 := ⟨i - 1, by omega⟩
    simp

/-- Witness for C3 at the spec's scenario `[A, B, C]` (serial): three
tasks, and the task for `B` has exactly the input link named `"A"`
targeting `A` and exactly the output link named `"B"` targeting `B`. -/
theorem synthesize_linear_chain_witness :
    (synthesize [stepA, stepB, stepC]).length = [stepA, stepB, stepC].length ∧
    ((synthesize [stepA, stepB, stepC]).getD 1 default).inputs =
      [⟨stepA.name, stepA⟩] ∧
    ((synthesize [stepA, stepB, stepC]).getD 1 default).outputs =
      [⟨stepB.name, stepB⟩] ∧
    ((synthesize [stepA, stepB, stepC]).getD 0 default).inputs = [] :=
  ⟨(synthesize_linear_chain [stepA, stepB, stepC] (by decide)).1,
   (synthesize_linear_chain [stepA, stepB, stepC] (by decide)).2.2.2 1
     (by decide) (by decide),
   (synthesize_linear_chain [stepA, stepB, stepC] (by decide)).2.1 1 (by decide),
   (synthesize_linear_chain [stepA, stepB, stepC] (by decide)).2.2.1 (by decide)⟩

/-- C5: when the orchestrator `SampleDeposition.normalize` runs and
`is_serial` returns `true`, the workflow container's task list becomes the
synthesized sequence — a single full replacement of any prior contents
(the archive is universally quantified, so the prior task list is
arbitrary); when `is_serial` returns `false`, the archive, and with it the
workflow task list, is left unchanged. -/
theorem sampleDeposition_normalize_frame (self : SampleDeposition)
    (archive : Archive) :
    (self.is_serial = true →
      (self.normalize archive).workflow2.tasks = synthesize self.steps) ∧
    (self.is_serial = false → self.normalize archive = archive) := by
  constructor <;> intro h <;> simp [SampleDeposition.normalize, h]

/-- Witness for C5: publishing over an archive holding a stale task wipes
it in the serial case, and the non-serial (overlapping) case leaves the
archive untouched. -/
theorem sampleDeposition_normalize_frame_witness :
    ((SampleDeposition.mk [stepA, stepB]).normalize archivePre).workflow2.tasks
        = synthesize [stepA, stepB] ∧
      (SampleDeposition.mk [stepA, stepBoverlap]).normalize archivePre
        = archivePre :=
  ⟨(sampleDeposition_normalize_frame (SampleDeposition.mk [stepA, stepB])
      archivePre).1 (by decide),
   (sampleDeposition_normalize_frame
      (SampleDeposition.mk [stepA, stepBoverlap]) archivePre).2 (by decide)⟩

/-- C8: task-graph synthesis is deterministic: two runs of the synthesizer
on the same unchanged serial step sequence produce task chains with
identical link names and identical link targets. -/
theorem synthesize_deterministic (steps : List Step) (ts1 ts2 : List Task)
    (hserial : (SampleDeposition.mk steps).is_serial = true)
    (h1 : ts1 = synthesize steps) (h2 : ts2 = synthesize steps) :
    ts1.map (fun t => (t.inputs.map fun l => (l.name, l.target),
        t.outputs.map fun l => (l.name, l.target)))
      = ts2.map (fun t => (t.inputs.map fun l => (l.name, l.target),
        t.outputs.map fun l => (l.name, l.target))) := by
  subst h1
  subst h2
  rfl

/-- Witness for C8 with two runs on the serial sequence `[A, B]`. -/
theorem synthesize_deterministic_witness :
    (synthesize [stepA, stepB]).map
        (fun t => (t.inputs.map fun l => (l.name, l.target),
          t.outputs.map fun l => (l.name, l.target)))
      = (synthesize [stepA, stepB]).map
        (fun t => (t.inputs.map fun l => (l.name, l.target),
          t.outputs.map fun l => (l.name, l.target))) :=
  synthesize_deterministic [stepA, stepB] (synthesize [stepA, stepB])
    (synthesize [stepA, stepB]) (by decide) rfl rfl

/-- C10: for a `SampleDeposition` with an empty step sequence the
orchestrator still publishes: `is_serial` returns `true`, the synthesized
task sequence is empty, and the workflow container's task list is replaced
by the empty list, wiping any previously stored tasks. -/
theorem normalize_empty_steps_publishes_empty (archive : Archive) :
    (SampleDeposition.mk []).is_serial = true ∧
    synthesize [] = [] ∧
    ((SampleDeposition.mk []).normalize archive).workflow2.tasks = [] :=
  ⟨rfl, rfl, rfl⟩

/-- C4: the flattener sets `components` to exactly the targets of the layer
references whose `reference` is set, in layer order, followed by the
substrate reference last when present; an empty layer list with an absent
substrate yields the empty list, and a layer entry with an unset reference
is skipped — the function is total, so neither case is an error. -/
theorem thinFilmStack_normalize_components (stack : ThinFilmStack) :
    (ThinFilmStack.normalize stack).components =
      (stack.layers.filterMap ThinFilmReference.reference).map
          SystemComponent.mk
        ++ stack.substrate.reference.toList.map SystemComponent.mk := by
  rcases hlay : stack.layers with _ | ⟨l, ls⟩ <;>
    rcases hsub : stack.substrate.reference with _ | r <;>
      simp [ThinFilmStack.normalize, hlay, hsub]

/-- C7: the flattener is idempotent: running it twice with unchanged
`layers` and `substrate` yields the same `components` as running it once,
because `components` is wholesale replaced on every run. -/
theorem thinFilmStack_normalize_idempotent (stack : ThinFilmStack) :
    ((ThinFilmStack.normalize stack).normalize).components =
      (ThinFilmStack.normalize stack).components := by
  rcases hlay : stack.layers with _ | ⟨l, ls⟩ <;>
    rcases hsub : stack.substrate.reference with _ | r <;>
      simp [ThinFilmStack.normalize, hlay, hsub]

end NMP
